import Mathlib

/-!
Verification of the path-namespace, install-destination, app-install and
apex-key-aggregation logic of the soong build engine
(`android/paths.go`, `java` app module file, `apex/key.go`).

Paths are modelled as Lean `String`s (lists of characters).  The Go standard
library helpers `filepath.Clean` and `filepath.Join` (for slash-separated
paths, the only separator used by this code base) are embedded as executable
functions on `List Char`: `Clean` resolves `.` and `..` segments with the
standard stack algorithm, `Join` concatenates with `/` starting from the
first non-empty element and cleans the result, exactly as the Go sources do.
-/

/-- Split a character list on `'/'`.  Always returns a non-empty list of
segments; `splitOnSlash "a//b" = ["a", "", "b"]`-style semantics, matching
how Go's path routines view a slash-separated path. -/
def splitOnSlash : List Char → List (List Char)
  | [] => [[]]
  | c :: cs =>
    match splitOnSlash cs with
    | [] => [[]]
    | s :: ss => if c = '/' then [] :: s :: ss else (c :: s) :: ss

/-- Join segments with `'/'` between them (Go `strings.Join(segs, "/")`). -/
def intercalateSlash : List (List Char) → List Char
  | [] => []
  | [s] => s
  | s :: ss => s ++ '/' :: intercalateSlash ss

/-- The segment-stack loop of Go's `filepath.Clean`: empty and `.` segments
are dropped, `..` pops a previous segment (or is dropped at the root of a
rooted path, or kept at the front of a relative path), anything else is
pushed.  `stack` holds the already-emitted segments in reverse order. -/
def cleanSegsAux (rooted : Bool) : List (List Char) → List (List Char) → List (List Char)
  | stack, [] => stack.reverse
  | stack, seg :: rest =>
    if seg = [] ∨ seg = ['.'] then cleanSegsAux rooted stack rest
    else if seg = ['.', '.'] then
      match stack with
      | [] => if rooted then cleanSegsAux rooted [] rest
              else cleanSegsAux rooted [['.', '.']] rest
      | t :: ts => if t = ['.', '.'] then cleanSegsAux rooted (seg :: t :: ts) rest
                   else cleanSegsAux rooted ts rest
    else cleanSegsAux rooted (seg :: stack) rest

/-- Whether a path is rooted (starts with `'/'`). -/
def isRooted (l : List Char) : Bool := l.head? = some '/'

/-- Go's `filepath.Clean` on a slash-separated path, on character lists. -/
def cleanChars (l : List Char) : List Char :=
  match l with
  | [] => ['.']
  | _ :: _ =>
    let segs := cleanSegsAux (isRooted l) [] (splitOnSlash l)
    if isRooted l then '/' :: intercalateSlash segs
    else match segs with
      | [] => ['.']
      | _ :: _ => intercalateSlash segs

/-- Go's `filepath.Clean` (slash separator). -/
def filepathClean (s : String) : String := ⟨cleanChars s.data⟩

/-- Go's `filepath.Join`: skip leading empty elements, join the remaining
elements (including later empty ones) with `/`, and `Clean` the result;
`Join()` of no or only empty elements is `""`. -/
def filepathJoin : List String → String
  | [] => ""
  | c :: rest =>
    if c = "" then filepathJoin rest
    else ⟨cleanChars (intercalateSlash ((c :: rest).map String.data))⟩

/-- `strings.HasPrefix(p, "../")` on the character list. -/
def startsWithDotDotSlash : List Char → Bool
  | '.' :: '.' :: '/' :: _ => true
  | _ => false

/-- `strings.HasPrefix(p, "/")` on the character list. -/
def startsWithSlash : List Char → Bool
  | '/' :: _ => true
  | _ => false

/-- The per-component escape test of `validateSafePath`: after cleaning, a
component is rejected when it is `".."`, starts with `"../"`, or starts with
`"/"` (Go `strings.HasPrefix` checks spelled on the character list). -/
def escapesComponent (p : String) : Bool :=
  p = ".." || startsWithDotDotSlash p.data || startsWithSlash p.data

/-- The loop of `validateSafePath`: first component whose cleaned form
attempts to leave its directory, returned in cleaned form. -/
def findUnsafeComponent : List String → Option String
  | [] => none
  | c :: rest =>
    let p := filepathClean c
    if escapesComponent p then some p else findUnsafeComponent rest

/-- `validateSafePath` (android/paths.go): ensures that each path component
does not attempt to leave its component, then returns the join of the
original components. -/
def validateSafePath (pathComponents : List String) : Except String String :=
  match findUnsafeComponent pathComponents with
  | some p => .error ("Path is outside directory: " ++ p)
  | none => .ok (filepathJoin pathComponents)

/-- The loop of `validatePath`: first component containing `'$'`. -/
def findDollarComponent : List String → Option String
  | [] => none
  | c :: rest => if '$' ∈ c.data then some c else findDollarComponent rest

/-- `validatePath` (android/paths.go): rejects components containing ninja
variables (`'$'`), then defers to `validateSafePath`. -/
def validatePath (pathComponents : List String) : Except String String :=
  match findDollarComponent pathComponents with
  | some c => .error ("Path contains invalid character($): " ++ c)
  | none => validateSafePath pathComponents

/-- `pathtools.IsGlob`: a pattern is a glob when it contains `*`, `?` or `[`. -/
def isGlobStr (s : String) : Bool :=
  s.data.any (fun c => c = '*' || c = '?' || c = '[')

/-- Go `strings.HasPrefix s pre`, on the character lists. -/
def hasPrefixStr (s pre : String) : Bool := pre.data.isPrefixOf s.data

/-- `Except.isOk` spelled locally (avoids library-version dependence). -/
def exceptIsOk : Except ε α → Bool
  | .ok _ => true
  | .error _ => false

/-- `Except.toOption` spelled locally. -/
def exceptToOption : Except ε α → Option α
  | .ok a => some a
  | .error _ => none

/-- The value field Go callers read out of `validatePath` when they ignore
the error: the joined path on success, `""` on failure (Go's `validatePath`
returns `("", err)` in its error cases). -/
def okOrEmpty : Except String String → String
  | .ok p => p
  | .error _ => ""

-- Sanity checks of the `Clean`/`Join` embedding against Go behavior.
example : filepathClean "a//b/./c/.." = "a/b" := by decide
example : filepathClean "" = "." := by decide
example : filepathClean "/../a/" = "/a" := by decide
example : filepathClean "../../x" = "../../x" := by decide
example : filepathJoin ["", "a", "", "b"] = "a/b" := by decide
example : filepathJoin [] = "" := by decide
example : validatePath ["a", "b/../c"] = .ok "a/c" := rfl
example : validatePath ["a", "../b"] = .error "Path is outside directory: ../b" := rfl
example : validatePath ["a$b"] = .error "Path contains invalid character($): a$b" := rfl
example : validatePath ["/abs"] = .error "Path is outside directory: /abs" := rfl

/-! ### Lemmas about the slash-segment structure of paths -/

theorem splitOnSlash_ne_nil (l : List Char) : splitOnSlash l ≠ [] := by
  cases l with
  | nil => simp [splitOnSlash]
  | cons c cs =>
    simp only [splitOnSlash]
    cases h : splitOnSlash cs with
    | nil => simp
    | cons s ss => by_cases hc : c = '/' <;> simp [hc]

theorem intercalateSlash_splitOnSlash (l : List Char) :
    intercalateSlash (splitOnSlash l) = l := by
  induction l with
  | nil => rfl
  | cons c cs ih =>
    simp only [splitOnSlash]
    cases h : splitOnSlash cs with
    | nil => exact absurd h (splitOnSlash_ne_nil cs)
    | cons s ss =>
      rw [h] at ih
      by_cases hc : c = '/'
      · subst hc
        simp only [if_pos rfl, intercalateSlash]
        simpa using ih
      · simp only [if_neg hc]
        cases ss with
        | nil => simpa [intercalateSlash] using ih
        | cons s2 ss2 =>
          simp only [intercalateSlash] at ih ⊢
          simpa using ih

theorem splitOnSlash_append (a b : List Char) :
    splitOnSlash (a ++ '/' :: b) = splitOnSlash a ++ splitOnSlash b := by
  induction a with
  | nil =>
    simp only [List.nil_append, splitOnSlash]
    cases h : splitOnSlash b with
    | nil => exact absurd h (splitOnSlash_ne_nil b)
    | cons s ss => simp
  | cons c a' ih =>
    have hstep : (c :: a') ++ '/' :: b = c :: (a' ++ '/' :: b) := rfl
    rw [hstep]
    simp only [splitOnSlash]
    rw [ih]
    cases h : splitOnSlash a' with
    | nil => exact absurd h (splitOnSlash_ne_nil a')
    | cons s ss => by_cases hc : c = '/' <;> simp [hc]

theorem splitOnSlash_no_slash (l : List Char) (h : '/' ∉ l) : splitOnSlash l = [l] := by
  induction l with
  | nil => rfl
  | cons c cs ih =>
    have hc : ¬c = '/' := fun he => h (he ▸ List.mem_cons_self c cs)
    have hcs : '/' ∉ cs := fun hm => h (List.mem_cons_of_mem c hm)
    simp only [splitOnSlash, ih hcs]
    simp [hc]

theorem splitOnSlash_cons_slash (t : List Char) :
    splitOnSlash ('/' :: t) = [] :: splitOnSlash t := by
  simp only [splitOnSlash]
  cases h : splitOnSlash t with
  | nil => exact absurd h (splitOnSlash_ne_nil t)
  | cons s ss => simp

theorem mem_intercalateSlash {x : Char} {segs : List (List Char)}
    (hx : x ∈ intercalateSlash segs) : x = '/' ∨ ∃ s ∈ segs, x ∈ s := by
  induction segs with
  | nil => simp [intercalateSlash] at hx
  | cons s ss ih =>
    cases ss with
    | nil =>
      simp only [intercalateSlash] at hx
      exact Or.inr ⟨s, List.mem_cons_self s [], hx⟩
    | cons s2 ss2 =>
      simp only [intercalateSlash] at hx
      rcases List.mem_append.mp hx with h | h
      · exact Or.inr ⟨s, List.mem_cons_self _ _, h⟩
      · rcases List.mem_cons.mp h with h | h
        · exact Or.inl h
        · rcases ih h with h | ⟨t, ht, hxt⟩
          · exact Or.inl h
          · exact Or.inr ⟨t, List.mem_cons_of_mem _ ht, hxt⟩

/-- A *plain* segment is kept as-is by `Clean`'s segment loop. -/
def PlainSeg (s : List Char) : Prop := s ≠ [] ∧ s ≠ ['.'] ∧ s ≠ ['.', '.']

/-- A *simple* segment is plain, slash-free and ninja-variable-free: the
shape of ordinary module-name / variant-name identifiers. -/
def SimpleSeg (s : List Char) : Prop := PlainSeg s ∧ '/' ∉ s ∧ '$' ∉ s

instance (s : List Char) : Decidable (PlainSeg s) := by unfold PlainSeg; infer_instance

instance (s : List Char) : Decidable (SimpleSeg s) := by unfold SimpleSeg PlainSeg; infer_instance

theorem cleanSegsAux_all_plain (rooted : Bool) (segs : List (List Char))
    (h : ∀ s ∈ segs, PlainSeg s) (stack : List (List Char)) :
    cleanSegsAux rooted stack segs = stack.reverse ++ segs := by
  induction segs generalizing stack with
  | nil => simp [cleanSegsAux]
  | cons s ss ih =>
    obtain ⟨h1, h2, h3⟩ := h s (List.mem_cons_self s ss)
    have hss : ∀ t ∈ ss, PlainSeg t := fun t ht => h t (List.mem_cons_of_mem s ht)
    simp only [cleanSegsAux]
    rw [if_neg (by simp [h1, h2]), if_neg h3, ih hss]
    simp

theorem cleanChars_of_plain (l : List Char) (h : ∀ s ∈ splitOnSlash l, PlainSeg s) :
    cleanChars l = l := by
  cases l with
  | nil =>
    exact absurd (h [] (by simp [splitOnSlash])) (by simp [PlainSeg])
  | cons c cs =>
    have hc : c ≠ '/' := by
      intro hc; subst hc
      have hmem : ([] : List Char) ∈ splitOnSlash ('/' :: cs) := by
        rw [splitOnSlash_cons_slash]; exact List.mem_cons_self _ _
      exact absurd (h [] hmem) (by simp [PlainSeg])
    have hrooted : isRooted (c :: cs) = false := by
      simp [isRooted, hc]
    simp only [cleanChars, hrooted, if_neg, Bool.false_eq_true, if_false]
    rw [cleanSegsAux_all_plain false _ h []]
    simp only [List.reverse_nil, List.nil_append]
    obtain ⟨s, ss, hs⟩ : ∃ s ss, splitOnSlash (c :: cs) = s :: ss := by
      cases h' : splitOnSlash (c :: cs) with
      | nil => exact absurd h' (splitOnSlash_ne_nil _)
      | cons s ss => exact ⟨s, ss, rfl⟩
    rw [hs]
    show intercalateSlash (s :: ss) = c :: cs
    rw [← hs, intercalateSlash_splitOnSlash]

theorem startsWithSlash_eq_true (l : List Char) :
    startsWithSlash l = true ↔ ∃ t, l = '/' :: t := by
  unfold startsWithSlash
  split
  · next t => simp
  · next hno =>
    simp only [Bool.false_eq_true, false_iff]
    rintro ⟨t, rfl⟩
    exact hno t rfl

theorem startsWithDotDotSlash_eq_true (l : List Char) :
    startsWithDotDotSlash l = true ↔ ∃ t, l = '.' :: '.' :: '/' :: t := by
  unfold startsWithDotDotSlash
  split
  · next t => simp
  · next hno =>
    simp only [Bool.false_eq_true, false_iff]
    rintro ⟨t, rfl⟩
    exact hno t rfl

theorem splitOnSlash_intercalate (ds : List (List Char)) (hne : ds ≠ []) :
    splitOnSlash (intercalateSlash ds) = (ds.map splitOnSlash).flatten := by
  induction ds with
  | nil => exact absurd rfl hne
  | cons d ds ih =>
    cases ds with
    | nil => simp [intercalateSlash]
    | cons d2 ds2 =>
      have hstep : intercalateSlash (d :: d2 :: ds2) = d ++ '/' :: intercalateSlash (d2 :: ds2) := rfl
      rw [hstep, splitOnSlash_append, ih (by simp)]
      simp

/-- Every slash-segment of a simple string is nonempty, so the string itself
is nonempty. -/
theorem data_ne_nil_of_simple (c : String)
    (h : ∀ s ∈ splitOnSlash c.data, SimpleSeg s) : c.data ≠ [] := by
  intro he
  have : SimpleSeg [] := by
    have := h [] (by rw [he]; simp [splitOnSlash])
    exact this
  exact absurd this (by simp [SimpleSeg, PlainSeg])

theorem not_dollar_of_simple (c : String)
    (h : ∀ s ∈ splitOnSlash c.data, SimpleSeg s) : '$' ∉ c.data := by
  intro hmem
  rw [← intercalateSlash_splitOnSlash c.data] at hmem
  rcases mem_intercalateSlash hmem with h' | ⟨s, hs, hmem'⟩
  · exact absurd h' (by decide)
  · exact (h s hs).2.2 hmem'

theorem escapesComponent_clean_of_simple (c : String)
    (h : ∀ s ∈ splitOnSlash c.data, SimpleSeg s) :
    escapesComponent (filepathClean c) = false := by
  have hplain : ∀ s ∈ splitOnSlash c.data, PlainSeg s := fun s hs => (h s hs).1
  have hclean : filepathClean c = c := by
    show (⟨cleanChars c.data⟩ : String) = c
    rw [cleanChars_of_plain c.data hplain]
  rw [hclean]
  unfold escapesComponent
  have h1 : c ≠ ".." := by
    intro he
    have hd : c.data = ['.', '.'] := by rw [he]
    have : SimpleSeg ['.', '.'] := h ['.', '.'] (by rw [hd]; simp [splitOnSlash])
    exact absurd this (by decide)
  have h2 : startsWithDotDotSlash c.data = false := by
    rcases hb : startsWithDotDotSlash c.data with _ | _
    · rfl
    · exfalso
      obtain ⟨t, ht⟩ := (startsWithDotDotSlash_eq_true c.data).mp hb
      have hsplit : splitOnSlash c.data = ['.', '.'] :: splitOnSlash t := by
        rw [ht]
        have : ('.' :: '.' :: '/' :: t) = ['.', '.'] ++ '/' :: t := rfl
        rw [this, splitOnSlash_append]
        rfl
      have : SimpleSeg ['.', '.'] := h ['.', '.'] (by rw [hsplit]; simp)
      exact absurd this (by decide)
  have h3 : startsWithSlash c.data = false := by
    rcases hb : startsWithSlash c.data with _ | _
    · rfl
    · exfalso
      obtain ⟨t, ht⟩ := (startsWithSlash_eq_true c.data).mp hb
      have hsplit : splitOnSlash c.data = [] :: splitOnSlash t := by
        rw [ht, splitOnSlash_cons_slash]
      have : SimpleSeg [] := h [] (by rw [hsplit]; simp)
      exact absurd this (by decide)
  simp [h1, h2, h3]

theorem findDollarComponent_of_simple (cs : List String)
    (h : ∀ c ∈ cs, ∀ s ∈ splitOnSlash c.data, SimpleSeg s) :
    findDollarComponent cs = none := by
  induction cs with
  | nil => rfl
  | cons c rest ih =>
    have hc := not_dollar_of_simple c (h c (List.mem_cons_self c rest))
    simp only [findDollarComponent, if_neg hc]
    exact ih (fun c' hc' s hs => h c' (List.mem_cons_of_mem c hc') s hs)

theorem findUnsafeComponent_of_simple (cs : List String)
    (h : ∀ c ∈ cs, ∀ s ∈ splitOnSlash c.data, SimpleSeg s) :
    findUnsafeComponent cs = none := by
  induction cs with
  | nil => rfl
  | cons c rest ih =>
    have hc := escapesComponent_clean_of_simple c (h c (List.mem_cons_self c rest))
    simp only [findUnsafeComponent, hc, Bool.false_eq_true, if_false]
    exact ih (fun c' hc' s hs => h c' (List.mem_cons_of_mem c hc') s hs)

/-- `validatePath` succeeds on components all of whose slash-segments are
simple, and returns the join. -/
theorem validatePath_of_simple (cs : List String)
    (h : ∀ c ∈ cs, ∀ s ∈ splitOnSlash c.data, SimpleSeg s) :
    validatePath cs = .ok (filepathJoin cs) := by
  unfold validatePath validateSafePath
  rw [findDollarComponent_of_simple cs h, findUnsafeComponent_of_simple cs h]

/-- On simple components, `filepath.Join` is exactly slash-concatenation. -/
theorem filepathJoin_of_simple (cs : List String) (hne : cs ≠ [])
    (h : ∀ c ∈ cs, ∀ s ∈ splitOnSlash c.data, SimpleSeg s) :
    filepathJoin cs = ⟨intercalateSlash (cs.map String.data)⟩ := by
  cases cs with
  | nil => exact absurd rfl hne
  | cons c rest =>
    have hc : c ≠ "" := by
      intro he
      exact data_ne_nil_of_simple c (h c (List.mem_cons_self c rest)) (by rw [he])
    simp only [filepathJoin, if_neg hc]
    congr 1
    apply cleanChars_of_plain
    rw [splitOnSlash_intercalate _ (by simp)]
    intro s hs
    rw [List.mem_flatten] at hs
    obtain ⟨seglist, hseg, hsmem⟩ := hs
    rw [List.mem_map] at hseg
    obtain ⟨cd, hcd, rfl⟩ := hseg
    rw [List.mem_map] at hcd
    obtain ⟨c', hc', rfl⟩ := hcd
    exact (h c' hc' s hsmem).1

/-- The slash-segments of a join of simple components are the concatenation
of the components' segments. -/
theorem segs_filepathJoin (cs : List String) (hne : cs ≠ [])
    (h : ∀ c ∈ cs, ∀ s ∈ splitOnSlash c.data, SimpleSeg s) :
    splitOnSlash (filepathJoin cs).data =
      (cs.map (fun c => splitOnSlash c.data)).flatten := by
  rw [filepathJoin_of_simple cs hne h]
  show splitOnSlash (intercalateSlash (cs.map String.data)) = _
  rw [splitOnSlash_intercalate _ (by simpa using hne), List.map_map]
  rfl

/-! ### C2: the `validatePath` contract -/

/-- A component is *bad* exactly when the claim says `validatePath` must
reject it: it contains an unexpanded variable marker `'$'`, or its cleaned
form is absolute, is `".."`, or starts with `"../"`. -/
def badComponent (c : String) : Bool :=
  decide ('$' ∈ c.data) || escapesComponent (filepathClean c)

theorem findDollarComponent_eq_none (cs : List String) :
    findDollarComponent cs = none ↔ ∀ c ∈ cs, '$' ∉ c.data := by
  induction cs with
  | nil => simp [findDollarComponent]
  | cons c rest ih =>
    by_cases hc : '$' ∈ c.data
    · simp [findDollarComponent, hc]
    · simp [findDollarComponent, hc, ih]

theorem findUnsafeComponent_eq_none (cs : List String) :
    findUnsafeComponent cs = none ↔
      ∀ c ∈ cs, escapesComponent (filepathClean c) = false := by
  induction cs with
  | nil => simp [findUnsafeComponent]
  | cons c rest ih =>
    by_cases hc : escapesComponent (filepathClean c) = true
    · simp [findUnsafeComponent, hc]
    · simp only [Bool.not_eq_true] at hc
      simp [findUnsafeComponent, hc, ih]

theorem validatePath_ok_of_no_bad (cs : List String)
    (h : ∀ c ∈ cs, badComponent c = false) :
    validatePath cs = .ok (filepathJoin cs) := by
  have hdollar : findDollarComponent cs = none := by
    rw [findDollarComponent_eq_none]
    intro c hc hmem
    have := h c hc
    simp [badComponent, hmem] at this
  have hescape : findUnsafeComponent cs = none := by
    rw [findUnsafeComponent_eq_none]
    intro c hc
    have := h c hc
    simp [badComponent] at this
    exact this.2
  unfold validatePath validateSafePath
  rw [hdollar, hescape]

theorem validatePath_error_of_bad (cs : List String)
    (h : ∃ c ∈ cs, badComponent c = true) :
    ∃ e, validatePath cs = .error e := by
  unfold validatePath validateSafePath
  cases hd : findDollarComponent cs with
  | some c => exact ⟨_, rfl⟩
  | none =>
    have hnd := (findDollarComponent_eq_none cs).mp hd
    cases hu : findUnsafeComponent cs with
    | some p => exact ⟨_, rfl⟩
    | none =>
      exfalso
      have hnu := (findUnsafeComponent_eq_none cs).mp hu
      obtain ⟨c, hc, hbad⟩ := h
      simp [badComponent] at hbad
      rcases hbad with hdol | hesc
      · exact hnd c hc hdol
      · rw [hnu c hc] at hesc
        exact Bool.false_ne_true hesc

/-- C2: for every component list, `validatePath` (used by `pathForSource`
and `PathForOutput`) fails exactly when some component contains an
unexpanded variable marker `'$'`, is absolute, or has a cleaned form that is
`".."` or starts with `"../"`; otherwise it returns the cleaned join of the
components. -/
theorem validatePath_rejects_escapes_and_markers (cs : List String) :
    exceptToOption (validatePath cs) =
      (if cs.any badComponent then none else some (filepathJoin cs))
    ∧ (exceptIsOk (validatePath cs) = false ↔ ∃ c ∈ cs, badComponent c = true) := by
  by_cases hany : cs.any badComponent = true
  · rw [List.any_eq_true] at hany
    obtain ⟨e, he⟩ := validatePath_error_of_bad cs hany
    rw [he]
    refine ⟨?_, ?_⟩
    · simp [exceptToOption, List.any_eq_true.mpr hany]
    · simp only [exceptIsOk, true_iff]
      exact hany
  · have hok : validatePath cs = .ok (filepathJoin cs) := by
      apply validatePath_ok_of_no_bad
      intro c hc
      rcases hbc : badComponent c with _ | _
      · rfl
      · exact absurd (List.any_eq_true.mpr ⟨c, hc, hbc⟩) hany
    rw [hok]
    rw [Bool.not_eq_true] at hany
    refine ⟨by simp [exceptToOption, hany], ?_⟩
    simp only [exceptIsOk, Bool.true_eq_false, false_iff]
    intro hex
    exact absurd (List.any_eq_true.mpr hex) (by simp [hany])

/-! ### C1: the per-module output root -/

/-- The `path` field of the `OutputPath` built by `PathForOutput`
(android/paths.go): the `validatePath` join on success; on validation error
the error is reported and the field is left `""`. -/
def pathForOutputField (pathComponents : List String) : String :=
  okOrEmpty (validatePath pathComponents)

/-- `pathForModule` (android/paths.go): the per-module output root
`PathForOutput(ctx, ".intermediates", ctx.ModuleDir(), ctx.ModuleName(),
ctx.ModuleSubDir())`, as the `path` field of the resulting `OutputPath`. -/
def pathForModule (moduleDir moduleName moduleSubDir : String) : String :=
  pathForOutputField [".intermediates", moduleDir, moduleName, moduleSubDir]

/-- C1 counterexample: the two distinct (moduleDir, moduleName,
variantSubDir) tuples ("a/b", "c", "d") and ("a", "b", "c/d") receive the
same module output root ".intermediates/a/b/c/d". -/
theorem pathForModule_collision :
    pathForModule "a/b" "c" "d" = pathForModule "a" "b" "c/d"
    ∧ (("a/b", "c", "d") : String × String × String) ≠ ("a", "b", "c/d") := by
  refine ⟨rfl, ?_⟩
  decide

theorem strData_inj {a b : String} (h : a.data = b.data) : a = b := by
  cases a; cases b; exact congrArg String.mk h

theorem splitOnSlash_inj {a b : List Char} (h : splitOnSlash a = splitOnSlash b) :
    a = b := by
  have h2 := congrArg intercalateSlash h
  rwa [intercalateSlash_splitOnSlash, intercalateSlash_splitOnSlash] at h2

theorem pathForModule_segments (d n s : String)
    (hd : ∀ t ∈ splitOnSlash d.data, SimpleSeg t)
    (hn : SimpleSeg n.data) (hs : SimpleSeg s.data) :
    splitOnSlash (pathForModule d n s).data =
      ".intermediates".data :: (splitOnSlash d.data ++ [n.data, s.data]) := by
  have hcomps : ∀ c ∈ [".intermediates", d, n, s], ∀ t ∈ splitOnSlash c.data, SimpleSeg t := by
    intro c hc
    simp only [List.mem_cons, List.not_mem_nil, or_false] at hc
    rcases hc with rfl | rfl | rfl | rfl
    · decide
    · exact hd
    · rw [splitOnSlash_no_slash _ hn.2.1]
      intro t ht
      simp only [List.mem_singleton] at ht
      subst ht
      exact hn
    · rw [splitOnSlash_no_slash _ hs.2.1]
      intro t ht
      simp only [List.mem_singleton] at ht
      subst ht
      exact hs
  have hval := validatePath_of_simple _ hcomps
  have hroot : pathForModule d n s = filepathJoin [".intermediates", d, n, s] := by
    unfold pathForModule pathForOutputField
    rw [hval]
    rfl
  rw [hroot, segs_filepathJoin _ (by simp) hcomps]
  have hn1 : splitOnSlash n.data = [n.data] := splitOnSlash_no_slash n.data hn.2.1
  have hs1 : splitOnSlash s.data = [s.data] := splitOnSlash_no_slash s.data hs.2.1
  have hi1 : splitOnSlash ".intermediates".data = [".intermediates".data] := by decide
  simp only [List.map_cons, List.map_nil, hn1, hs1, hi1, List.flatten_cons, List.flatten_nil]
  simp

/-- C1 (amended): for module dirs whose slash-segments are simple
identifiers and for simple (slash-free, non-dot) module names and variant
subdirs, distinct (moduleDir, moduleName, variantSubDir) tuples always
receive distinct `pathForModule` output roots; without those shape
restrictions the guarantee fails (`pathForModule_collision`). -/
theorem pathForModule_injective_on_simple (d₁ n₁ s₁ d₂ n₂ s₂ : String)
    (hd₁ : ∀ t ∈ splitOnSlash d₁.data, SimpleSeg t)
    (hn₁ : SimpleSeg n₁.data) (hs₁ : SimpleSeg s₁.data)
    (hd₂ : ∀ t ∈ splitOnSlash d₂.data, SimpleSeg t)
    (hn₂ : SimpleSeg n₂.data) (hs₂ : SimpleSeg s₂.data)
    (heq : pathForModule d₁ n₁ s₁ = pathForModule d₂ n₂ s₂) :
    d₁ = d₂ ∧ n₁ = n₂ ∧ s₁ = s₂ := by
  have h1 := pathForModule_segments d₁ n₁ s₁ hd₁ hn₁ hs₁
  have h2 := pathForModule_segments d₂ n₂ s₂ hd₂ hn₂ hs₂
  rw [heq, h2] at h1
  injection h1 with _ h3
  obtain ⟨hD, hNS⟩ := List.append_inj' h3.symm rfl
  have hd : d₁ = d₂ := strData_inj (splitOnSlash_inj hD)
  simp only [List.cons.injEq, and_true] at hNS
  exact ⟨hd, strData_inj hNS.1, strData_inj hNS.2⟩

/-- Witness for the amended C1 theorem at concrete simple components. -/
theorem pathForModule_injective_on_simple_witness :
    ("frameworks/base" : String) = "frameworks/base"
    ∧ ("core" : String) = "core" ∧ ("android_common" : String) = "android_common" :=
  pathForModule_injective_on_simple "frameworks/base" "core" "android_common"
    "frameworks/base" "core" "android_common"
    (by decide) (by decide) (by decide) (by decide) (by decide) (by decide) rfl

/-! ### C4: FirstUniquePaths / LastUniquePaths -/

/-- The scan of `FirstUniquePaths` (android/paths.go): walk the list keeping
an element only when it is not already among the kept ones (`acc`, in
reverse order); models the in-place quadratic loop's observable result.
Polymorphic in the element type, standing for `Path` values compared with Go
interface equality. -/
def firstUniqueAux {α : Type} [DecidableEq α] (acc : List α) : List α → List α
  | [] => acc.reverse
  | x :: xs => if x ∈ acc then firstUniqueAux acc xs else firstUniqueAux (x :: acc) xs

/-- `FirstUniquePaths` (android/paths.go): all unique elements of a list,
keeping the first copy of each. -/
def FirstUniquePaths {α : Type} [DecidableEq α] (list : List α) : List α :=
  firstUniqueAux [] list

/-- `LastUniquePaths` (android/paths.go): all unique elements of a list,
keeping the last copy of each; the backward in-place shifting loop of the
source keeps, in order, exactly the elements with no later duplicate, which
is first-unique deduplication of the reversed list, reversed back. -/
def LastUniquePaths {α : Type} [DecidableEq α] (list : List α) : List α :=
  (FirstUniquePaths list.reverse).reverse

/-- Specification-level description of first-occurrence deduplication: keep
each head and drop its later duplicates. -/
def keepFirstOccurrences {α : Type} [DecidableEq α] : List α → List α
  | [] => []
  | x :: xs => x :: keepFirstOccurrences (xs.filter (fun y => y ≠ x))
termination_by l => l.length
decreasing_by simp only [List.length_cons]; exact Nat.lt_succ_of_le (List.length_filter_le _ _)

theorem firstUniqueAux_eq {α : Type} [DecidableEq α] (l : List α) :
    ∀ acc, firstUniqueAux acc l =
      acc.reverse ++ keepFirstOccurrences (l.filter (fun y => y ∉ acc)) := by
  induction l with
  | nil => intro acc; simp [firstUniqueAux, keepFirstOccurrences]
  | cons x xs ih =>
    intro acc
    by_cases hx : x ∈ acc
    · have hfx : (x :: xs).filter (fun y => y ∉ acc) = xs.filter (fun y => y ∉ acc) := by
        simp [List.filter_cons, hx]
      simp only [firstUniqueAux, if_pos hx, ih acc, hfx]
    · have hfx : (x :: xs).filter (fun y => y ∉ acc) = x :: xs.filter (fun y => y ∉ acc) := by
        simp [List.filter_cons, hx]
      have hff : (xs.filter (fun y => y ∉ acc)).filter (fun y => y ≠ x) =
          xs.filter (fun y => y ∉ x :: acc) := by
        rw [List.filter_filter]
        apply List.filter_congr
        intro a _
        by_cases h1 : a = x <;> by_cases h2 : a ∈ acc <;> simp [h1, h2]
      simp only [firstUniqueAux, if_neg hx, ih (x :: acc)]
      rw [hfx]
      simp only [keepFirstOccurrences, hff, List.reverse_cons, List.append_assoc,
        List.cons_append, List.nil_append]

theorem FirstUniquePaths_eq_keepFirst {α : Type} [DecidableEq α] (l : List α) :
    FirstUniquePaths l = keepFirstOccurrences l := by
  unfold FirstUniquePaths
  rw [firstUniqueAux_eq l []]
  have : l.filter (fun y => y ∉ ([] : List α)) = l := by
    apply List.filter_eq_self.mpr
    intro a _
    simp
  rw [this]
  rfl

theorem mem_keepFirstOccurrences {α : Type} [DecidableEq α] (l : List α) (a : α) :
    a ∈ keepFirstOccurrences l ↔ a ∈ l := by
  induction l using keepFirstOccurrences.induct with
  | case1 => simp [keepFirstOccurrences]
  | case2 x xs ih =>
    simp only [keepFirstOccurrences, List.mem_cons, ih]
    by_cases ha : a = x
    · simp [ha]
    · simp only [ha, false_or]
      rw [List.mem_filter]
      simp [ha]

theorem keepFirstOccurrences_nodup {α : Type} [DecidableEq α] (l : List α) :
    (keepFirstOccurrences l).Nodup := by
  induction l using keepFirstOccurrences.induct with
  | case1 => simp [keepFirstOccurrences]
  | case2 x xs ih =>
    simp only [keepFirstOccurrences, List.nodup_cons]
    refine ⟨?_, ih⟩
    rw [mem_keepFirstOccurrences]
    intro hmem
    have := (List.mem_filter.mp hmem).2
    simp at this

theorem keepFirstOccurrences_of_nodup {α : Type} [DecidableEq α] (l : List α)
    (h : l.Nodup) : keepFirstOccurrences l = l := by
  induction l using keepFirstOccurrences.induct with
  | case1 => simp [keepFirstOccurrences]
  | case2 x xs ih =>
    rw [List.nodup_cons] at h
    have hfe : xs.filter (fun y => y ≠ x) = xs := by
      apply List.filter_eq_self.mpr
      intro a ha
      simp only [ne_eq, decide_eq_true_eq]
      intro he
      subst he
      exact h.1 ha
    rw [hfe] at ih
    simp only [keepFirstOccurrences, hfe]
    rw [ih h.2]

theorem keepFirstOccurrences_idem {α : Type} [DecidableEq α] (l : List α) :
    keepFirstOccurrences (keepFirstOccurrences l) = keepFirstOccurrences l :=
  keepFirstOccurrences_of_nodup _ (keepFirstOccurrences_nodup l)

theorem keepFirstOccurrences_sublist {α : Type} [DecidableEq α] (l : List α) :
    List.Sublist (keepFirstOccurrences l) l := by
  induction l using keepFirstOccurrences.induct with
  | case1 => simp [keepFirstOccurrences]
  | case2 x xs ih =>
    simp only [keepFirstOccurrences]
    exact List.Sublist.cons₂ x (ih.trans (List.filter_sublist xs))

-- Sanity: first/last-occurrence semantics on a small list.
example : FirstUniquePaths ["a", "b", "a", "c", "b"] = ["a", "b", "c"] := by decide
example : LastUniquePaths ["a", "b", "a", "c", "b"] = ["a", "c", "b"] := by decide

/-- C4: `FirstUniquePaths` and `LastUniquePaths` are idempotent, preserve
the relative order of the elements they keep (each returns a sublist of its
input), and keep respectively the first or the last occurrence of every
duplicated element (first-occurrence deduplication of the list, resp. of its
reversal). -/
theorem uniquePaths_idempotent_ordered {α : Type} [DecidableEq α] (l : List α) :
    FirstUniquePaths (FirstUniquePaths l) = FirstUniquePaths l
    ∧ LastUniquePaths (LastUniquePaths l) = LastUniquePaths l
    ∧ List.Sublist (FirstUniquePaths l) l
    ∧ List.Sublist (LastUniquePaths l) l
    ∧ FirstUniquePaths l = keepFirstOccurrences l
    ∧ LastUniquePaths l = (keepFirstOccurrences l.reverse).reverse := by
  have hf : ∀ m : List α, FirstUniquePaths m = keepFirstOccurrences m :=
    FirstUniquePaths_eq_keepFirst
  refine ⟨?_, ?_, ?_, ?_, hf l, ?_⟩
  · rw [hf, hf, keepFirstOccurrences_idem]
  · unfold LastUniquePaths
    rw [hf, hf, List.reverse_reverse, keepFirstOccurrences_idem]
  · rw [hf]
    exact keepFirstOccurrences_sublist l
  · unfold LastUniquePaths
    rw [hf]
    have h1 := keepFirstOccurrences_sublist l.reverse
    have h2 := List.reverse_sublist.mpr h1
    rwa [List.reverse_reverse] at h2
  · unfold LastUniquePaths
    rw [hf]

/-! ### Path contexts, error reporting, and the path structures -/

/-- The capabilities and configuration of the `PathContext` handed to the
path constructors: the source/build roots and file system from `Config`/
`Fs`, and which of the optional interfaces the concrete context implements
(`moduleErrorf` via ModuleContext, blueprint's `errorfContext`,
`PathGlobContext`). -/
structure PathCtx where
  srcDir : String
  buildDir : String
  files : List String
  allowMissingDeps : Bool
  isModuleCtx : Bool
  hasErrorf : Bool
  isGlobCtx : Bool
deriving DecidableEq

/-- Observable side effects of the path constructors: errors registered
against the owning module or the context, glob / ninja-file re-evaluation
dependencies, and missing-dependency registrations. -/
inductive PathEvent where
  | moduleError (msg : String)
  | contextError (msg : String)
  | globDep (pattern : String)
  | ninjaFileDep (pattern : String)
  | missingDeps (paths : List String)
deriving DecidableEq

/-- `reportPathErrorf` (android/paths.go): attempts `ctx.ModuleErrorf` for a
better error message first, then falls back to `ctx.Errorf`; with neither
capability the Go code panics, modelled as the `Except.error` outcome. -/
def reportPathErrorf (ctx : PathCtx) (msg : String) : Except String PathEvent :=
  if ctx.isModuleCtx then .ok (.moduleError msg)
  else if ctx.hasErrorf then .ok (.contextError msg)
  else .error msg

/-- `reportPathError` (android/paths.go) forwards the error's text. -/
def reportPathError (ctx : PathCtx) (msg : String) : Except String PathEvent :=
  reportPathErrorf ctx msg

/-- `basePath` (android/paths.go); the `config` field is not modelled here,
the roots it carries live in `PathCtx`. -/
structure basePath where
  path : String
  rel : String
deriving DecidableEq

/-- `basePath.Rel` (android/paths.go): the portion of the path relative to
the directory it was created from, defaulting to the whole path. -/
def basePath.Rel (p : basePath) : String :=
  if p.rel ≠ "" then p.rel else p.path

/-- `basePath.withRel` (android/paths.go): join `rel` onto the path and
remember it as the relative component. -/
def basePath.withRel (p : basePath) (rel : String) : basePath :=
  { path := filepathJoin [p.path, rel], rel := rel }

/-- `SourcePath` (android/paths.go): a path rooted at the source tree. -/
structure SourcePath where
  base : basePath
deriving DecidableEq

/-- `OutputPath` (android/paths.go): a path rooted at the build directory. -/
structure OutputPath where
  base : basePath
deriving DecidableEq

/-! ### C10: the OptionalPath container -/

/-- `OptionalPath` (android/paths.go): a container that may or may not hold
a valid path, parametric in the wrapped path type; `none` models Go's nil
interface value. -/
structure OptionalPath (π : Type) where
  valid : Bool := false
  path : Option π := none
deriving DecidableEq

/-- `OptionalPathForPath` (android/paths.go): invalid for nil, valid
wrapping the path otherwise. -/
def OptionalPathForPath {π : Type} (path : Option π) : OptionalPath π :=
  match path with
  | none => {}
  | some _ => { valid := true, path := path }

/-- `OptionalPath.Valid` (android/paths.go). -/
def OptionalPath.Valid {π : Type} (p : OptionalPath π) : Bool := p.valid

/-- `OptionalPath.Path` (android/paths.go): returns the embedded path, and
panics ("Requesting an invalid path") when there is none; the panic is
modelled as the `Except.error` outcome. -/
def OptionalPath.Path {π : Type} (p : OptionalPath π) : Except String (Option π) :=
  if !p.valid then .error "Requesting an invalid path"
  else .ok p.path

/-- `OptionalPath.String` (android/paths.go): the string version of the
path, or `""` if it is not valid; `strOf` abstracts the wrapped type's own
`String()` method (every valid value built by the constructors wraps a
non-nil path, so the nil branch is unreachable there). -/
def OptionalPath.String {π : Type} (strOf : π → String) (p : OptionalPath π) : String :=
  if p.valid then (match p.path with | some q => strOf q | none => "") else ""

/-- C10: `OptionalPath.Path` succeeds exactly when `Valid()` is true and
panics otherwise; `OptionalPathForPath` returns an invalid `OptionalPath`
for a nil path and a valid one wrapping the path otherwise; `String()`
returns the empty string on every invalid `OptionalPath`. -/
theorem optionalPath_contract {π : Type} (p : OptionalPath π) (q : π)
    (pa : Option π) (strOf : π → String) :
    exceptIsOk (OptionalPath.Path p) = p.Valid
    ∧ (OptionalPath.mk false pa).Path = .error "Requesting an invalid path"
    ∧ OptionalPathForPath (none : Option π) = { valid := false, path := none }
    ∧ OptionalPathForPath (some q) = { valid := true, path := some q }
    ∧ (OptionalPath.mk false pa).String strOf = "" := by
  refine ⟨?_, rfl, rfl, rfl, rfl⟩
  cases p with
  | mk v pp => cases v <;> rfl

/-! ### C5: the withRel/Rel round trip through the Join helpers -/

/-- `OutputPath.Join` (android/paths.go): validate the extra components,
report on a validation error (the Go code then joins the empty string the
failed `validatePath` returned), and re-root via `withRel`. -/
def OutputPath.Join (ctx : PathCtx) (p : OutputPath) (paths : List String) :
    Except String (OutputPath × List PathEvent) :=
  match validatePath paths with
  | .error e =>
    match reportPathError ctx e with
    | .error pmsg => .error pmsg
    | .ok ev => .ok (⟨p.base.withRel ""⟩, [ev])
  | .ok r => .ok (⟨p.base.withRel r⟩, [])

/-- `SourcePath.Join` (android/paths.go): same shape as `OutputPath.Join`
on the source root. -/
def SourcePath.Join (ctx : PathCtx) (p : SourcePath) (paths : List String) :
    Except String (SourcePath × List PathEvent) :=
  match validatePath paths with
  | .error e =>
    match reportPathError ctx e with
    | .error pmsg => .error pmsg
    | .ok ev => .ok (⟨p.base.withRel ""⟩, [ev])
  | .ok r => .ok (⟨p.base.withRel r⟩, [])

/-- C5: joining components that validate to a non-empty relative name `r`
onto any path via `OutputPath.Join` / `SourcePath.Join` (both through
`basePath.withRel`) and then querying `Rel()` returns exactly `r`,
regardless of the root `p` is based on. -/
theorem join_rel_roundtrip (ctx : PathCtx) (po : OutputPath) (ps : SourcePath)
    (cs : List String) (r : String)
    (hval : validatePath cs = .ok r) (hne : r ≠ "") :
    (∃ q, OutputPath.Join ctx po cs = .ok (q, []) ∧ q.base.Rel = r)
    ∧ (∃ q, SourcePath.Join ctx ps cs = .ok (q, []) ∧ q.base.Rel = r) := by
  constructor
  · refine ⟨⟨po.base.withRel r⟩, ?_, ?_⟩
    · unfold OutputPath.Join
      rw [hval]
    · unfold basePath.Rel basePath.withRel
      simp [hne]
  · refine ⟨⟨ps.base.withRel r⟩, ?_, ?_⟩
    · unfold SourcePath.Join
      rw [hval]
    · unfold basePath.Rel basePath.withRel
      simp [hne]

/-- Witness for C5 at a concrete root and component list. -/
theorem join_rel_roundtrip_witness :
    (∃ q, OutputPath.Join
        (PathCtx.mk "." "out" [] false true true true)
        ⟨basePath.mk "out/sub" ""⟩ ["gen", "a.cpp"] = .ok (q, [])
      ∧ q.base.Rel = "gen/a.cpp")
    ∧ (∃ q, SourcePath.Join
        (PathCtx.mk "." "out" [] false true true true)
        ⟨basePath.mk "dir" ""⟩ ["gen", "a.cpp"] = .ok (q, [])
      ∧ q.base.Rel = "gen/a.cpp") :=
  join_rel_roundtrip (PathCtx.mk "." "out" [] false true true true)
    ⟨basePath.mk "out/sub" ""⟩ ⟨basePath.mk "dir" ""⟩
    ["gen", "a.cpp"] "gen/a.cpp" rfl (by decide)

/-! ### C7: the install destination function -/

/-- `ctx.Os()` for install paths; `other` carries the name used by the
default branch of `PathForModuleInstall`. -/
inductive OsType where
  | linux
  | linuxBionic
  | other (name : String)
deriving DecidableEq

/-- `ModuleInstallPathContext` (android/paths.go): the module attributes and
device configuration read by `PathForModuleInstall` and `modulePartition`. -/
structure ModuleInstallPathContext where
  device : Bool
  os : OsType
  deviceName : String
  debug : Bool
  installInData : Bool
  installInSanitizerDir : Bool
  installInRecovery : Bool
  socSpecific : Bool
  deviceSpecific : Bool
  productSpecific : Bool
  productServicesSpecific : Bool
  vendorPath : String
  odmPath : String
  productPath : String
  productServicesPath : String
deriving DecidableEq

/-- `modulePartition` (android/paths.go). -/
def modulePartition (ctx : ModuleInstallPathContext) : String :=
  let partition :=
    if ctx.installInData then "data"
    else if ctx.installInRecovery then "recovery/root/system"
    else if ctx.socSpecific then ctx.vendorPath
    else if ctx.deviceSpecific then ctx.odmPath
    else if ctx.productSpecific then ctx.productPath
    else if ctx.productServicesSpecific then ctx.productServicesPath
    else "system"
  if ctx.installInSanitizerDir then "data/asan/" ++ partition else partition

/-- Modelled from the spec: the install-destination partition as described
by §4.3/§6 — chosen by a pure function of the module attributes, with data
taking precedence over recovery, recovery over the vendor/odm/product(-
services) partitions, "system" as the default, and the sanitizer flag
prefixing the partition with "data/asan/". -/
def specModulePartition (ctx : ModuleInstallPathContext) : String :=
  let base :=
    if ctx.installInData then "data"
    else if ctx.installInRecovery then "recovery/root/system"
    else if ctx.socSpecific then ctx.vendorPath
    else if ctx.deviceSpecific then ctx.odmPath
    else if ctx.productSpecific then ctx.productPath
    else if ctx.productServicesSpecific then ctx.productServicesPath
    else "system"
  if ctx.installInSanitizerDir then "data/asan/" ++ base else base

/-- The out-directory components assembled by `PathForModuleInstall`
(android/paths.go): the per-device target root with the partition, or the
per-OS host root, with a leading "debug" for debug contexts. -/
def installOutComponents (ctx : ModuleInstallPathContext) : List String :=
  let outPaths :=
    if ctx.device then ["target", "product", ctx.deviceName, modulePartition ctx]
    else match ctx.os with
      | .linux => ["host", "linux-x86"]
      | .linuxBionic => ["host", "linux_bionic-x86"]
      | .other n => ["host", n ++ "-x86"]
  if ctx.debug then "debug" :: outPaths else outPaths

/-- `PathForModuleInstall` (android/paths.go): the install path for the
module appended with the given components, as the `path` field of the
`OutputPath` built by `PathForOutput`. -/
def PathForModuleInstall (ctx : ModuleInstallPathContext)
    (pathComponents : List String) : String :=
  pathForOutputField (installOutComponents ctx ++ pathComponents)

/-- C7: the install destination (`PathForModuleInstall` composed with
`modulePartition`) is a total, deterministic function of the module flags,
agreeing with the spec's precedence description: data beats recovery,
recovery beats the soc/device/product/product-services partitions, "system"
is the default, and the sanitizer flag prefixes the partition with
"data/asan/"; on device the root is target/product/(device)/(partition) and
on a Linux host it is host/linux-x86. -/
theorem modulePartition_total_deterministic (ctx : ModuleInstallPathContext)
    (cs : List String) :
    modulePartition ctx = specModulePartition ctx
    ∧ modulePartition { ctx with installInData := true, installInSanitizerDir := false } = "data"
    ∧ modulePartition { ctx with installInData := false, installInRecovery := true, installInSanitizerDir := false } = "recovery/root/system"
    ∧ modulePartition { ctx with installInData := false, installInRecovery := false, socSpecific := false, deviceSpecific := false, productSpecific := false, productServicesSpecific := false, installInSanitizerDir := false } = "system"
    ∧ modulePartition { ctx with installInSanitizerDir := true } = "data/asan/" ++ modulePartition { ctx with installInSanitizerDir := false }
    ∧ PathForModuleInstall { ctx with device := true, debug := false } cs = pathForOutputField (["target", "product", ctx.deviceName, modulePartition { ctx with device := true, debug := false }] ++ cs)
    ∧ PathForModuleInstall { ctx with device := false, os := OsType.linux, debug := false } cs = pathForOutputField (["host", "linux-x86"] ++ cs) := by
  refine ⟨rfl, by simp [modulePartition], by simp [modulePartition],
    by simp [modulePartition], by simp [modulePartition], ?_, ?_⟩
  · unfold PathForModuleInstall installOutComponents
    simp
  · unfold PathForModuleInstall installOutComponents
    simp

/-! ### C8: privileged app install destinations -/

theorem installOutComponents_ne_nil (ctx : ModuleInstallPathContext) :
    installOutComponents ctx ≠ [] := by
  unfold installOutComponents
  cases hdbg : ctx.debug <;> cases hdev : ctx.device <;> cases hos : ctx.os <;>
    simp [hdbg, hdev, hos]

/-- The slash-segments of the install root chosen by
`PathForModuleInstall`. -/
def installRootSegs (ctx : ModuleInstallPathContext) : List (List Char) :=
  ((installOutComponents ctx).map (fun c => splitOnSlash c.data)).flatten

theorem strData_append (a b : String) : (a ++ b).data = a.data ++ b.data := rfl

theorem pathForModuleInstall_segments (ctx : ModuleInstallPathContext)
    (cs : List String)
    (hroot : ∀ c ∈ installOutComponents ctx, ∀ t ∈ splitOnSlash c.data, SimpleSeg t)
    (hcs : ∀ c ∈ cs, ∀ t ∈ splitOnSlash c.data, SimpleSeg t) :
    splitOnSlash (PathForModuleInstall ctx cs).data =
      installRootSegs ctx ++ (cs.map (fun c => splitOnSlash c.data)).flatten := by
  have hall : ∀ c ∈ installOutComponents ctx ++ cs, ∀ t ∈ splitOnSlash c.data, SimpleSeg t := by
    intro c hc
    rcases List.mem_append.mp hc with hc | hc
    · exact hroot c hc
    · exact hcs c hc
  have hne : installOutComponents ctx ++ cs ≠ [] := by
    simp [installOutComponents_ne_nil ctx]
  unfold PathForModuleInstall pathForOutputField
  rw [validatePath_of_simple _ hall]
  show splitOnSlash (filepathJoin (installOutComponents ctx ++ cs)).data = _
  rw [segs_filepathJoin _ hne hall, List.map_append, List.flatten_append]
  rfl

/-- `SimpleSeg` survives appending the literal extension ".apk". -/
theorem simpleSeg_append_apk (a : String) (h : SimpleSeg a.data) :
    SimpleSeg (a ++ ".apk").data := by
  obtain ⟨⟨h1, h2, h3⟩, h4, h5⟩ := h
  rw [strData_append]
  refine ⟨⟨?_, ?_, ?_⟩, ?_, ?_⟩
  · simp [h1]
  · intro he
    have hlen := congrArg List.length he
    simp [List.length_append] at hlen
  · intro he
    have hlen := congrArg List.length he
    simp [List.length_append] at hlen
  · intro hm
    rcases List.mem_append.mp hm with hm | hm
    · exact h4 hm
    · exact absurd hm (by decide)
  · intro hm
    rcases List.mem_append.mp hm with hm | hm
    · exact h5 hm
    · exact absurd hm (by decide)

/-- The install-destination directory components chosen by
`AndroidApp.generateAndroidBuildActions` when it calls `InstallFile`:
"framework" for the framework-res module, priv-app/(apk name) for
privileged modules, app/(apk name) otherwise. -/
def generateInstallComponents (moduleName : String) (privileged : Bool)
    (installApkName : String) : List String :=
  if moduleName = "framework-res" then ["framework"]
  else if privileged then ["priv-app", installApkName]
  else ["app", installApkName]

/-- The `installDir` computed by `AndroidApp.dexBuildActions`
(filepath.Join of the root and the apk name). -/
def dexInstallDir (moduleName : String) (privileged : Bool)
    (installApkName : String) : String :=
  if moduleName = "framework-res" then "framework"
  else if privileged then filepathJoin ["priv-app", installApkName]
  else filepathJoin ["app", installApkName]

/-- The install destination directory of the app package,
`PathForModuleInstall` applied to the components chosen by
`generateAndroidBuildActions`. -/
def appInstallDir (ctx : ModuleInstallPathContext) (moduleName : String)
    (privileged : Bool) (installApkName : String) : String :=
  PathForModuleInstall ctx (generateInstallComponents moduleName privileged installApkName)

/-- The dexpreopter install path set by `AndroidApp.dexBuildActions`:
`PathForModuleInstall(ctx, installDir, installApkName+".apk")`. -/
def dexpreoptInstallPath (ctx : ModuleInstallPathContext) (moduleName : String)
    (privileged : Bool) (installApkName : String) : String :=
  PathForModuleInstall ctx
    [dexInstallDir moduleName privileged installApkName, installApkName ++ ".apk"]

/-- C8 (amended): for every app module with `Privileged = true` whose module
name is not "framework-res" and whose install apk name is a simple segment,
over every device/host install context whose root components consist of
simple slash-segments, both the package install destination chosen by
`generateAndroidBuildActions` and the dexpreopt install path chosen by
`dexBuildActions` sit directly under the "priv-app" root, and the package
destination is never under the normal "app" root. -/
theorem privileged_app_installs_under_priv_app (ctx : ModuleInstallPathContext)
    (moduleName installApkName : String)
    (hname : moduleName ≠ "framework-res")
    (happ : SimpleSeg installApkName.data)
    (hroot : ∀ c ∈ installOutComponents ctx, ∀ t ∈ splitOnSlash c.data, SimpleSeg t) :
    splitOnSlash (appInstallDir ctx moduleName true installApkName).data
      = installRootSegs ctx ++ ["priv-app".data, installApkName.data]
    ∧ splitOnSlash (dexpreoptInstallPath ctx moduleName true installApkName).data
      = installRootSegs ctx
          ++ ["priv-app".data, installApkName.data, (installApkName ++ ".apk").data]
    ∧ (∀ rest, splitOnSlash (appInstallDir ctx moduleName true installApkName).data
        ≠ installRootSegs ctx ++ "app".data :: rest) := by
  have hps : splitOnSlash "priv-app".data = ["priv-app".data] := by decide
  have happSegs : splitOnSlash installApkName.data = [installApkName.data] :=
    splitOnSlash_no_slash _ happ.2.1
  have hcs : ∀ c ∈ ["priv-app", installApkName], ∀ t ∈ splitOnSlash c.data, SimpleSeg t := by
    intro c hc
    simp only [List.mem_cons, List.not_mem_nil, or_false] at hc
    rcases hc with rfl | rfl
    · decide
    · rw [splitOnSlash_no_slash _ happ.2.1]
      intro t ht
      simp only [List.mem_singleton] at ht
      subst ht
      exact happ
  have hgen : generateInstallComponents moduleName true installApkName
      = ["priv-app", installApkName] := by
    simp [generateInstallComponents, hname]
  have h1 : splitOnSlash (appInstallDir ctx moduleName true installApkName).data
      = installRootSegs ctx ++ ["priv-app".data, installApkName.data] := by
    unfold appInstallDir
    rw [hgen, pathForModuleInstall_segments ctx _ hroot hcs]
    congr 1
    simp [hps, happSegs]
  refine ⟨h1, ?_, ?_⟩
  · have hdex : dexInstallDir moduleName true installApkName
        = filepathJoin ["priv-app", installApkName] := by
      simp [dexInstallDir, hname]
    have hjoin : filepathJoin ["priv-app", installApkName]
        = ⟨"priv-app".data ++ '/' :: installApkName.data⟩ := by
      rw [filepathJoin_of_simple _ (by simp) hcs]
      rfl
    have hdexsegs : splitOnSlash (filepathJoin ["priv-app", installApkName]).data
        = ["priv-app".data, installApkName.data] := by
      rw [hjoin]
      show splitOnSlash ("priv-app".data ++ '/' :: installApkName.data) = _
      rw [splitOnSlash_append, happSegs, hps]
      rfl
    have happk : SimpleSeg (installApkName ++ ".apk").data :=
      simpleSeg_append_apk installApkName happ
    have hcs2 : ∀ c ∈ [dexInstallDir moduleName true installApkName,
        installApkName ++ ".apk"], ∀ t ∈ splitOnSlash c.data, SimpleSeg t := by
      intro c hc
      simp only [List.mem_cons, List.not_mem_nil, or_false] at hc
      rcases hc with rfl | rfl
      · rw [hdex, hdexsegs]
        intro t ht
        simp only [List.mem_cons, List.not_mem_nil, or_false] at ht
        rcases ht with rfl | rfl
        · decide
        · exact happ
      · rw [splitOnSlash_no_slash _ happk.2.1]
        intro t ht
        simp only [List.mem_singleton] at ht
        subst ht
        exact happk
    unfold dexpreoptInstallPath
    rw [pathForModuleInstall_segments ctx _ hroot hcs2]
    congr 1
    have happksegs : splitOnSlash (installApkName ++ ".apk").data
        = [(installApkName ++ ".apk").data] := splitOnSlash_no_slash _ happk.2.1
    simp only [List.map_cons, List.map_nil]
    rw [hdex, hdexsegs, happksegs]
    simp
  · intro rest h
    rw [h1] at h
    have hx : ["priv-app".data, installApkName.data] = "app".data :: rest :=
      List.append_cancel_left h
    injection hx with hx1 _
    exact absurd hx1 (by decide)

/-- C8 counterexample: a privileged app module named "framework-res" is
installed under "framework", not under the priv-app root, falsifying the
unconditional claim. -/
theorem privileged_framework_res_escapes_priv_app :
    appInstallDir
      (ModuleInstallPathContext.mk true OsType.linux "generic" false false false
        false false false false false "vendor" "odm" "product" "product_services")
      "framework-res" true "framework-res"
      = "target/product/generic/system/framework"
    ∧ "priv-app".data ∉ splitOnSlash
        (appInstallDir
          (ModuleInstallPathContext.mk true OsType.linux "generic" false false false
            false false false false false "vendor" "odm" "product" "product_services")
          "framework-res" true "framework-res").data := by
  refine ⟨rfl, by decide⟩

/-- Witness for the amended C8 theorem at a concrete privileged module. -/
theorem privileged_app_installs_under_priv_app_witness :
    splitOnSlash (appInstallDir
      (ModuleInstallPathContext.mk true OsType.linux "generic" false false false
        false false false false false "vendor" "odm" "product" "product_services")
      "MyApp" true "MyApp").data
      = installRootSegs
          (ModuleInstallPathContext.mk true OsType.linux "generic" false false false
            false false false false false "vendor" "odm" "product" "product_services")
          ++ ["priv-app".data, "MyApp".data] :=
  (privileged_app_installs_under_priv_app _ "MyApp" "MyApp"
    (by decide) (by decide) (by decide)).1

/-! ### C3 and C6: PathForSource and ExistentPathForSource -/

/-- `SourcePath.String` (android/paths.go):
`filepath.Join(p.config.srcDir, p.path)`. -/
def SourcePath.String (ctx : PathCtx) (p : SourcePath) : String :=
  filepathJoin [ctx.srcDir, p.base.path]

/-- `pathForSource` (android/paths.go): create a `SourcePath` from the
components without checking that it exists; returns the (possibly invalid)
value together with the error, as the Go function does, additionally
rejecting source paths that lie inside the output directory. -/
def pathForSource (ctx : PathCtx) (pathComponents : List String) :
    SourcePath × Option String :=
  match validatePath pathComponents with
  | .error e => (⟨⟨"", ""⟩⟩, some e)
  | .ok p =>
    let ret : SourcePath := ⟨⟨p, ""⟩⟩
    if hasPrefixStr (SourcePath.String ctx ret) ctx.buildDir then
      (ret, some ("source path \"" ++ SourcePath.String ctx ret ++ "\" is in output"))
    else (ret, none)

/-- `existsWithDependencies` (android/paths.go): existence via
`GlobWithDeps` when the context supports globbing, else via
`pathtools.Glob` followed by `AddNinjaFileDeps`.  The external glob — a
plain existence check for the glob-free patterns used here — is modelled as
membership in the context's file list, and the registered re-evaluation
dependency as an event carrying the pattern. -/
def existsWithDependencies (ctx : PathCtx) (pattern : String) : Bool × PathEvent :=
  if ctx.isGlobCtx then (ctx.files.contains pattern, .globDep pattern)
  else (ctx.files.contains pattern, .ninjaFileDep pattern)

/-- `PathForSource` (android/paths.go): join and validate the components;
on any failure report the error (module error first, context error as
fallback) and keep going, returning a usable but possibly invalid
`SourcePath`; existence is checked through `existsWithDependencies` plus
`AddMissingDependencies` for module contexts allowed to have missing
dependencies, and through `Fs().Exists` with a reported error otherwise. -/
def PathForSource (ctx : PathCtx) (pathComponents : List String) :
    Except String (SourcePath × List PathEvent) :=
  let pr := pathForSource ctx pathComponents
  let str := SourcePath.String ctx pr.1
  let step1 : Except String (List PathEvent) :=
    match pr.2 with
    | some e =>
      match reportPathError ctx e with
      | .error pmsg => .error pmsg
      | .ok ev => .ok [ev]
    | none => .ok []
  match step1 with
  | .error pmsg => .error pmsg
  | .ok evs1 =>
    let step2 : Except String (List PathEvent) :=
      if isGlobStr str then
        match reportPathErrorf ctx ("path may not contain a glob: " ++ str) with
        | .error pmsg => .error pmsg
        | .ok ev => .ok (evs1 ++ [ev])
      else .ok evs1
    match step2 with
    | .error pmsg => .error pmsg
    | .ok evs2 =>
      if ctx.isModuleCtx && ctx.allowMissingDeps then
        let ex := existsWithDependencies ctx str
        if ex.1 then .ok (pr.1, evs2 ++ [ex.2])
        else .ok (pr.1, evs2 ++ [ex.2, .missingDeps [str]])
      else
        if ctx.files.contains str then .ok (pr.1, evs2)
        else
          match reportPathErrorf ctx ("source path \"" ++ str ++ "\" does not exist") with
          | .error pmsg => .error pmsg
          | .ok ev => .ok (pr.1, evs2 ++ [ev])

/-- `ExistentPathForSource` (android/paths.go): an `OptionalPath` holding
the `SourcePath` when it exists, absent when it does not, with re-run
dependencies registered through `existsWithDependencies`. -/
def ExistentPathForSource (ctx : PathCtx) (pathComponents : List String) :
    Except String (OptionalPath SourcePath × List PathEvent) :=
  match pathForSource ctx pathComponents with
  | (_, some e) =>
    match reportPathError ctx e with
    | .error pmsg => .error pmsg
    | .ok ev => .ok ({}, [ev])
  | (path, none) =>
    if isGlobStr (SourcePath.String ctx path) then
      match reportPathErrorf ctx
          ("path may not contain a glob: " ++ SourcePath.String ctx path) with
      | .error pmsg => .error pmsg
      | .ok ev => .ok ({}, [ev])
    else
      let ex := existsWithDependencies ctx (SourcePath.String ctx path)
      if ex.1 then .ok (OptionalPathForPath (some path), [ex.2])
      else .ok ({}, [ex.2])

theorem reportPathErrorf_channel (ctx : PathCtx)
    (hch : ctx.isModuleCtx = true ∨ ctx.hasErrorf = true) (msg : String) :
    reportPathErrorf ctx msg =
      .ok (if ctx.isModuleCtx then PathEvent.moduleError msg
           else PathEvent.contextError msg) := by
  unfold reportPathErrorf
  rcases hm : ctx.isModuleCtx with _ | _
  · rcases hch with h | h
    · rw [hm] at h
      exact absurd h (by simp)
    · simp [hm, h]
  · simp [hm]

/-- C3: a malformed path handed to `PathForSource` is reported against the
owning module when the context is a module context, falling back to a
context-level error otherwise; the constructor still returns a usable (but
invalid) `SourcePath` value; and evaluation is never aborted — the outcome
is `.ok` — whenever the context offers either error channel. -/
theorem pathForSource_malformed_no_abort (ctx : PathCtx) (cs : List String)
    (e : String) (hval : validatePath cs = .error e)
    (hch : ctx.isModuleCtx = true ∨ ctx.hasErrorf = true) :
    ∃ evs, PathForSource ctx cs = .ok (⟨⟨"", ""⟩⟩, evs)
      ∧ evs.head? = some (if ctx.isModuleCtx then PathEvent.moduleError e
          else PathEvent.contextError e) := by
  have hpr : pathForSource ctx cs = (⟨⟨"", ""⟩⟩, some e) := by
    unfold pathForSource
    rw [hval]
  have hrepf := reportPathErrorf_channel ctx hch
  simp only [PathForSource, hpr, reportPathError, hrepf, existsWithDependencies]
  split_ifs <;> exact ⟨_, rfl, by simp⟩

/-- Witness for C3: a component escaping the source root, in a module
context. -/
theorem pathForSource_malformed_no_abort_witness :
    ∃ evs, PathForSource (PathCtx.mk "." "out" [] false true true true) ["../x"]
        = .ok (⟨⟨"", ""⟩⟩, evs)
      ∧ evs.head? = some (if (PathCtx.mk "." "out" [] false true true true).isModuleCtx
          then PathEvent.moduleError "Path is outside directory: ../x"
          else PathEvent.contextError "Path is outside directory: ../x") :=
  pathForSource_malformed_no_abort (PathCtx.mk "." "out" [] false true true true)
    ["../x"] "Path is outside directory: ../x" rfl (Or.inl rfl)

/-- C6: for every valid glob-free source path, `ExistentPathForSource`
registers a glob / ninja-file re-evaluation dependency on the path, and —
when the file does not exist — returns an absent `OptionalPath` with no
error reported; when the file exists it returns a valid `OptionalPath`
containing the `SourcePath`. -/
theorem existentPathForSource_contract (ctx : PathCtx) (cs : List String)
    (p : String) (hval : validatePath cs = .ok p)
    (hbuild : hasPrefixStr (SourcePath.String ctx ⟨⟨p, ""⟩⟩) ctx.buildDir = false)
    (hglob : isGlobStr (SourcePath.String ctx ⟨⟨p, ""⟩⟩) = false) :
    (ctx.files.contains (SourcePath.String ctx ⟨⟨p, ""⟩⟩) = false →
       ExistentPathForSource ctx cs = .ok (OptionalPath.mk false none,
         [(existsWithDependencies ctx (SourcePath.String ctx ⟨⟨p, ""⟩⟩)).2]))
    ∧ (ctx.files.contains (SourcePath.String ctx ⟨⟨p, ""⟩⟩) = true →
       ExistentPathForSource ctx cs = .ok (OptionalPathForPath (some ⟨⟨p, ""⟩⟩),
         [(existsWithDependencies ctx (SourcePath.String ctx ⟨⟨p, ""⟩⟩)).2]))
    ∧ (existsWithDependencies ctx (SourcePath.String ctx ⟨⟨p, ""⟩⟩)).2
        = (if ctx.isGlobCtx then PathEvent.globDep (SourcePath.String ctx ⟨⟨p, ""⟩⟩)
           else PathEvent.ninjaFileDep (SourcePath.String ctx ⟨⟨p, ""⟩⟩)) := by
  have hpr : pathForSource ctx cs = (⟨⟨p, ""⟩⟩, none) := by
    unfold pathForSource
    rw [hval]
    simp [hbuild]
  refine ⟨?_, ?_, ?_⟩
  · intro hmem
    simp only [ExistentPathForSource, hpr, hglob, Bool.false_eq_true, if_false,
      existsWithDependencies]
    split_ifs <;> simp_all [existsWithDependencies]
  · intro hmem
    simp only [ExistentPathForSource, hpr, hglob, Bool.false_eq_true, if_false,
      existsWithDependencies]
    split_ifs <;> simp_all [existsWithDependencies]
  · unfold existsWithDependencies
    split_ifs <;> rfl

/-- Witness for C6: a valid glob-free path that exists in the mock file
list, in a globbing module context. -/
theorem existentPathForSource_contract_witness :
    ExistentPathForSource (PathCtx.mk "." "out" ["a/b"] false true true true)
        ["a", "b"]
      = .ok (OptionalPathForPath (some ⟨⟨"a/b", ""⟩⟩),
          [(existsWithDependencies (PathCtx.mk "." "out" ["a/b"] false true true true)
            (SourcePath.String (PathCtx.mk "." "out" ["a/b"] false true true true)
              ⟨⟨"a/b", ""⟩⟩)).2]) :=
  (existentPathForSource_contract (PathCtx.mk "." "out" ["a/b"] false true true true)
    ["a", "b"] "a/b" rfl (by decide) (by decide)).2.1 (by decide)

/-! ### C9: the apex-keys aggregate singleton -/

/-- The escaping performed by Go's `%q` for quote and backslash characters
(the full verb also escapes non-printables, which the names and key-file
paths written here do not contain). -/
def goEscape : List Char → List Char
  | [] => []
  | c :: rest =>
    if c = '"' ∨ c = '\\' then '\\' :: c :: goEscape rest
    else c :: goEscape rest

/-- Go `%q`: double quotes around the escaped text. -/
def goQuote (s : String) : String := ⟨'"' :: (goEscape s.data ++ ['"'])⟩

/-- The fields of an `apexBundle` module read by the apex-keys singleton
(`apex/key.go`); the `apexBundle` module type itself is declared outside
the given sources, only its key/certificate path fields matter here. -/
structure ApexBundleInfo where
  name : String
  public_key_file : String
  private_key_file : String
  container_certificate_file : String
  container_private_key_file : String
deriving DecidableEq

/-- A module as seen by `VisitAllModules` in
`apexKeysText.GenerateBuildActions`: its enabled flag, and its apexBundle
fields when the type assertion `module.(*apexBundle)` succeeds. -/
structure ApexModule where
  enabled : Bool
  bundle : Option ApexBundleInfo
deriving DecidableEq

/-- The text printed for one `apexBundle` module, without the record
terminator: `name=%q public_key=%q private_key=%q container_certificate=%q
container_private_key=%q` with `.apex` appended to the module name. -/
def apexKeysRecordBody (b : ApexBundleInfo) : String :=
  "name=" ++ goQuote (b.name ++ ".apex")
    ++ " public_key=" ++ goQuote b.public_key_file
    ++ " private_key=" ++ goQuote b.private_key_file
    ++ " container_certificate=" ++ goQuote b.container_certificate_file
    ++ " container_private_key=" ++ goQuote b.container_private_key_file

/-- One record as `GenerateBuildActions` prints it: the Go format string
ends in the literal two-character escape backslash-n, which the `WriteFile`
rule renders as a newline in apexkeys.txt. -/
def apexKeysRecord (b : ApexBundleInfo) : String :=
  apexKeysRecordBody b ++ "\\n"

/-- The content accumulated by `apexKeysText.GenerateBuildActions` over
`VisitAllModules`, in visitation order: disabled modules and modules that
are not apexBundles contribute nothing. -/
def apexKeysTextContent : List ApexModule → String
  | [] => ""
  | m :: ms =>
    (if !m.enabled then ""
     else
       match m.bundle with
       | some b => apexKeysRecord b
       | none => "") ++ apexKeysTextContent ms

/-- The parameters of one emitted build statement. -/
structure BuildActionParams where
  rule : String
  description : String
  output : String
  contentArg : String
deriving DecidableEq

/-- The build action emitted by `apexKeysText.GenerateBuildActions`: a
`WriteFile` rule whose output is `PathForOutput(ctx, "apexkeys.txt")` and
whose content argument is the accumulated text. -/
def apexKeysTextGenerateBuildActions (modules : List ApexModule) : BuildActionParams :=
  { rule := "WriteFile", description := "apexkeys.txt",
    output := pathForOutputField ["apexkeys.txt"],
    contentArg := apexKeysTextContent modules }

/-- Modelled from the spec: the `WriteFile` rule is defined outside the
given sources; per §6 ("deterministic, newline-terminated records ...
written as ordinary build outputs") it writes its content argument to the
output file interpreting the two-character escape backslash-n as a
newline. -/
def renderEsc : List Char → List Char
  | [] => []
  | [c] => [c]
  | c :: d :: rest =>
    if c = '\\' ∧ d = 'n' then '\n' :: renderEsc rest
    else c :: renderEsc (d :: rest)

/-- The file content produced by the `WriteFile` rule from its content
argument (see `renderEsc`). -/
def renderWriteFile (s : String) : String := ⟨renderEsc s.data⟩

/-- Concatenation of a list of strings in order. -/
def joinStrings : List String → String
  | [] => ""
  | s :: rest => s ++ joinStrings rest

/-- The modules contributing records: enabled apexBundles, in visitation
order. -/
def contributingBundles (modules : List ApexModule) : List ApexBundleInfo :=
  modules.filterMap fun m => if m.enabled then m.bundle else none

/-- Fields free of quote and backslash characters, on which the modelled
`%q` escaping is the identity. -/
def bundleFieldsClean (b : ApexBundleInfo) : Prop :=
  ('\\' ∉ b.name.data ∧ '"' ∉ b.name.data)
  ∧ ('\\' ∉ b.public_key_file.data ∧ '"' ∉ b.public_key_file.data)
  ∧ ('\\' ∉ b.private_key_file.data ∧ '"' ∉ b.private_key_file.data)
  ∧ ('\\' ∉ b.container_certificate_file.data ∧ '"' ∉ b.container_certificate_file.data)
  ∧ ('\\' ∉ b.container_private_key_file.data ∧ '"' ∉ b.container_private_key_file.data)

instance (b : ApexBundleInfo) : Decidable (bundleFieldsClean b) := by
  unfold bundleFieldsClean
  infer_instance

theorem goEscape_id (l : List Char) (h1 : '\\' ∉ l) (h2 : '"' ∉ l) :
    goEscape l = l := by
  induction l with
  | nil => rfl
  | cons c rest ih =>
    have hc1 : c ≠ '\\' := fun he => h1 (he ▸ List.mem_cons_self c rest)
    have hc2 : c ≠ '"' := fun he => h2 (he ▸ List.mem_cons_self c rest)
    have hr1 : '\\' ∉ rest := fun hm => h1 (List.mem_cons_of_mem c hm)
    have hr2 : '"' ∉ rest := fun hm => h2 (List.mem_cons_of_mem c hm)
    simp only [goEscape, ih hr1 hr2]
    rw [if_neg (by simp [hc1, hc2])]

theorem renderEsc_cons_of_ne (c : Char) (l : List Char) (hc : c ≠ '\\') :
    renderEsc (c :: l) = c :: renderEsc l := by
  cases l with
  | nil => rfl
  | cons d rest =>
    simp only [renderEsc]
    rw [if_neg (by simp [hc])]

theorem renderEsc_append_of_no_backslash (a b : List Char) (h : '\\' ∉ a) :
    renderEsc (a ++ b) = a ++ renderEsc b := by
  induction a with
  | nil => rfl
  | cons c a2 ih =>
    have hc : c ≠ '\\' := fun he => h (he ▸ List.mem_cons_self c a2)
    have ha2 : '\\' ∉ a2 := fun hm => h (List.mem_cons_of_mem c hm)
    rw [List.cons_append, renderEsc_cons_of_ne c _ hc, ih ha2, List.cons_append]

theorem backslash_not_mem_quote (s : String) (h1 : '\\' ∉ s.data)
    (h2 : '"' ∉ s.data) : '\\' ∉ (goQuote s).data := by
  intro hm
  unfold goQuote at hm
  rw [goEscape_id s.data h1 h2] at hm
  simp only [List.mem_cons, List.mem_append, List.mem_singleton] at hm
  rcases hm with h | h | h
  · exact absurd h (by decide)
  · exact h1 h
  · exact absurd h (by decide)

theorem backslash_not_mem_strAppend (x y : String) (hx : '\\' ∉ x.data)
    (hy : '\\' ∉ y.data) : '\\' ∉ (x ++ y).data := by
  rw [strData_append]
  intro hm
  rcases List.mem_append.mp hm with h | h
  · exact hx h
  · exact hy h

theorem backslash_not_mem_body (b : ApexBundleInfo) (h : bundleFieldsClean b) :
    '\\' ∉ (apexKeysRecordBody b).data := by
  obtain ⟨⟨hn1, hn2⟩, ⟨hp1, hp2⟩, ⟨hk1, hk2⟩, ⟨hc1, hc2⟩, ⟨hd1, hd2⟩⟩ := h
  have ha1 : '\\' ∉ (b.name ++ ".apex").data := by
    rw [strData_append]
    intro hm
    rcases List.mem_append.mp hm with hm | hm
    · exact hn1 hm
    · exact absurd hm (by decide)
  have ha2 : '"' ∉ (b.name ++ ".apex").data := by
    rw [strData_append]
    intro hm
    rcases List.mem_append.mp hm with hm | hm
    · exact hn2 hm
    · exact absurd hm (by decide)
  unfold apexKeysRecordBody
  repeat' apply backslash_not_mem_strAppend
  all_goals first
    | decide
    | exact backslash_not_mem_quote _ ha1 ha2
    | exact backslash_not_mem_quote _ hp1 hp2
    | exact backslash_not_mem_quote _ hk1 hk2
    | exact backslash_not_mem_quote _ hc1 hc2
    | exact backslash_not_mem_quote _ hd1 hd2

theorem renderWriteFile_content (modules : List ApexModule)
    (h : ∀ m ∈ modules, ∀ b, m.bundle = some b → bundleFieldsClean b) :
    renderWriteFile (apexKeysTextContent modules)
      = joinStrings ((contributingBundles modules).map
          (fun b => apexKeysRecordBody b ++ "\n")) := by
  induction modules with
  | nil => rfl
  | cons m ms ih =>
    have hms : ∀ m2 ∈ ms, ∀ b, m2.bundle = some b → bundleFieldsClean b :=
      fun m2 hm2 => h m2 (List.mem_cons_of_mem m hm2)
    rcases hen : m.enabled with _ | _
    · have hcontent : apexKeysTextContent (m :: ms) = apexKeysTextContent ms := by
        simp [apexKeysTextContent, hen]
      have hcontrib : contributingBundles (m :: ms) = contributingBundles ms := by
        simp [contributingBundles, List.filterMap_cons, hen]
      rw [hcontent, hcontrib]
      exact ih hms
    · rcases hb : m.bundle with _ | b
      · have hcontent : apexKeysTextContent (m :: ms) = apexKeysTextContent ms := by
          simp [apexKeysTextContent, hen, hb]
        have hcontrib : contributingBundles (m :: ms) = contributingBundles ms := by
          simp [contributingBundles, List.filterMap_cons, hen, hb]
        rw [hcontent, hcontrib]
        exact ih hms
      · have hbclean := h m (List.mem_cons_self m ms) b hb
        have hcontent : apexKeysTextContent (m :: ms)
            = (apexKeysRecordBody b ++ "\\n") ++ apexKeysTextContent ms := by
          simp [apexKeysTextContent, hen, hb, apexKeysRecord]
        have hcontrib : contributingBundles (m :: ms) = b :: contributingBundles ms := by
          simp [contributingBundles, List.filterMap_cons, hen, hb]
        rw [hcontent, hcontrib]
        have hdata : ((apexKeysRecordBody b ++ "\\n") ++ apexKeysTextContent ms).data
            = (apexKeysRecordBody b).data
                ++ ('\\' :: 'n' :: (apexKeysTextContent ms).data) := by
          rw [strData_append, strData_append, List.append_assoc]
          rfl
        unfold renderWriteFile
        rw [hdata,
          renderEsc_append_of_no_backslash _ _ (backslash_not_mem_body b hbclean)]
        have hesc : renderEsc ('\\' :: 'n' :: (apexKeysTextContent ms).data)
            = '\n' :: renderEsc (apexKeysTextContent ms).data := by
          simp [renderEsc]
        rw [hesc]
        show _ = (apexKeysRecordBody b ++ "\n")
          ++ joinStrings ((contributingBundles ms).map (fun b2 => apexKeysRecordBody b2 ++ "\n"))
        rw [← ih hms]
        apply strData_inj
        unfold renderWriteFile
        rw [strData_append, strData_append]
        simp

/-- C9: the apex-keys singleton emits, for every enabled module matched by
the apexBundle predicate, one newline-terminated record (`name=...
public_key=... private_key=...` plus container fields), concatenated in the
visitation order of the module graph, as a WriteFile action whose output is
the ordinary build output apexkeys.txt; the emitted action is a pure
function of the visited module list, so two runs over the same module set
produce identical content. -/
theorem apexKeysText_deterministic_records (modules : List ApexModule)
    (h : ∀ m ∈ modules, ∀ b, m.bundle = some b → bundleFieldsClean b) :
    (apexKeysTextGenerateBuildActions modules).rule = "WriteFile"
    ∧ (apexKeysTextGenerateBuildActions modules).output
        = pathForOutputField ["apexkeys.txt"]
    ∧ renderWriteFile ((apexKeysTextGenerateBuildActions modules).contentArg)
        = joinStrings ((contributingBundles modules).map
            (fun b => apexKeysRecordBody b ++ "\n")) :=
  ⟨rfl, rfl, renderWriteFile_content modules h⟩

/-- Witness for C9 on a three-module set (one enabled apexBundle, one
disabled apexBundle, one non-apexBundle module). -/
theorem apexKeysText_deterministic_records_witness :
    renderWriteFile ((apexKeysTextGenerateBuildActions
        [ApexModule.mk true (some (ApexBundleInfo.mk "com.android.x" "pub.avbpubkey" "priv.pem" "cert.x509.pem" "cert.pk8")),
         ApexModule.mk false (some (ApexBundleInfo.mk "y" "a" "b" "c" "d")),
         ApexModule.mk true none]).contentArg)
      = joinStrings ((contributingBundles
        [ApexModule.mk true (some (ApexBundleInfo.mk "com.android.x" "pub.avbpubkey" "priv.pem" "cert.x509.pem" "cert.pk8")),
         ApexModule.mk false (some (ApexBundleInfo.mk "y" "a" "b" "c" "d")),
         ApexModule.mk true none]).map
          (fun b => apexKeysRecordBody b ++ "\n")) :=
  (apexKeysText_deterministic_records _ (by decide)).2.2
